import Mathlib

/-!
Verification of the cookie-authenticated session bridge of a browser-based
Gemini chat client.  The development shallowly embeds the relevant source
functions (`src/lib/cookieUtils.ts`, `src/server/geminiClient.ts`, the
`useChat` hook and the zustand chat store) as executable Lean definitions and
proves the specification claims C1-C9 about them.
-/

namespace GeminiBridge

/-! ## JavaScript primitives

`isJsWs` models the character class `\s` of JavaScript regular expressions,
which is also the set of characters removed by `String.prototype.trim`.
-/

/-- The JavaScript whitespace class `\s` (also used by `trim`). -/
def isJsWs (c : Char) : Bool :=
  c = ' ' || c = '\t' || c = '\n' || c = '\r' || c = '\x0b' || c = '\x0c' ||
  c = '\u00A0' || c = '\u1680' || (0x2000 ≤ c.val && c.val ≤ 0x200A) ||
  c = '\u2028' || c = '\u2029' || c = '\u202F' || c = '\u205F' ||
  c = '\u3000' || c = '\uFEFF'

/-- Is the character a semicolon (the cookie-segment separator)? -/
def isSemi (c : Char) : Bool := c = ';'

/-! ## Maximal-run rewriting

A JavaScript global replace such as `/\s*\n\s*/g → "; "`, `/\s{2,}/g → " "`
or `/;{2,}/g → ";"` rewrites every maximal run of characters of a class `p`
by a function of the run.  `collapseRuns p f` performs exactly that: each
maximal nonempty `p`-run `r` is replaced by `f r`, all other characters are
kept.  It is implemented with a structurally recursive worker `runsGo` that
accumulates the current run (reversed) so that concrete inputs evaluate by
kernel reduction. -/

/-- Worker for `collapseRuns`: `acc` is the reversed current `p`-run. -/
def runsGo (p : Char → Bool) (f : List Char → List Char)
    (acc : List Char) : List Char → List Char
  | [] => if acc = [] then [] else f acc.reverse
  | c :: rest =>
    if p c then runsGo p f (c :: acc) rest
    else if acc = [] then c :: runsGo p f [] rest
    else f acc.reverse ++ c :: runsGo p f [] rest

/-- Replace every maximal nonempty `p`-run `r` of the list by `f r`. -/
def collapseRuns (p : Char → Bool) (f : List Char → List Char)
    (l : List Char) : List Char :=
  runsGo p f [] l

theorem runsGo_ne_nil (p : Char → Bool) (f : List Char → List Char)
    (l acc : List Char) (hacc : acc ≠ []) :
    runsGo p f acc l =
      f (acc.reverse ++ l.takeWhile p) ++ runsGo p f [] (l.dropWhile p) := by
  induction l generalizing acc with
  | nil => simp [runsGo, hacc]
  | cons c rest ih =>
    by_cases hp : p c
    · have h₂ : (c :: acc) ≠ [] := by simp
      rw [runsGo, if_pos hp, ih _ h₂]
      simp [hp, List.takeWhile_cons, List.dropWhile_cons]
    · rw [runsGo, if_neg hp, if_neg hacc]
      simp [runsGo, hp, List.takeWhile_cons, List.dropWhile_cons]

@[simp] theorem collapseRuns_nil (p : Char → Bool) (f : List Char → List Char) :
    collapseRuns p f [] = [] := rfl

theorem collapseRuns_cons_neg (p : Char → Bool) (f : List Char → List Char)
    (c : Char) (l : List Char) (hp : ¬ p c) :
    collapseRuns p f (c :: l) = c :: collapseRuns p f l := by
  simp [collapseRuns, runsGo, hp]

theorem collapseRuns_cons_pos (p : Char → Bool) (f : List Char → List Char)
    (c : Char) (l : List Char) (hp : p c) :
    collapseRuns p f (c :: l) =
      f (c :: l.takeWhile p) ++ collapseRuns p f (l.dropWhile p) := by
  have h₁ : collapseRuns p f (c :: l) = runsGo p f [c] l := by
    simp [collapseRuns, runsGo, hp]
  rw [h₁, runsGo_ne_nil p f l [c] (by simp)]
  rfl

/-- Induction principle matching the run structure used by `collapseRuns`. -/
theorem runInduction (p : Char → Bool) (P : List Char → Prop)
    (h0 : P [])
    (h1 : ∀ c l, ¬ p c → P l → P (c :: l))
    (h2 : ∀ c l, p c → P (l.dropWhile p) → P (c :: l)) :
    ∀ l, P l := by
  have key : ∀ n l, List.length l ≤ n → P l := by
    intro n
    induction n with
    | zero =>
      intro l h
      have : l = [] := List.eq_nil_of_length_eq_zero (Nat.le_zero.mp h)
      simpa [this] using h0
    | succ n ih =>
      intro l h
      cases l with
      | nil => exact h0
      | cons c rest =>
        by_cases hp : p c
        · have hlen : (rest.dropWhile p).length ≤ rest.length :=
            (List.dropWhile_sublist (p := p) (l := rest)).length_le
          exact h2 c rest hp (ih _ (le_trans hlen (Nat.succ_le_succ_iff.mp h)))
        · exact h1 c rest hp (ih rest (Nat.succ_le_succ_iff.mp h))
  exact fun l => key l.length l le_rfl

/-! ## Trimming and splitting -/

/-- Remove a trailing run of `p`-characters. -/
def dropTrailing (p : Char → Bool) (l : List Char) : List Char :=
  (l.reverse.dropWhile p).reverse

/-- `String.prototype.trim` on a character list. -/
def jsTrimChars (l : List Char) : List Char :=
  dropTrailing isJsWs (l.dropWhile isJsWs)

/-- `String.prototype.split(sep)` for a one-character separator. -/
def splitOnChar (sep : Char) : List Char → List (List Char)
  | [] => [[]]
  | c :: rest =>
    if c = sep then [] :: splitOnChar sep rest
    else
      match splitOnChar sep rest with
      | [] => [[c]]
      | s :: ss => (c :: s) :: ss

/-- `Array.prototype.join(sep)` on character lists. -/
def joinSep (sep : List Char) : List (List Char) → List Char
  | [] => []
  | [s] => s
  | s :: s' :: rest => s ++ sep ++ joinSep sep (s' :: rest)

/-! ## `cookieUtils.ts` — `sanitizeCookieString`

```js
return cookieString
  .replace(/\s*\n\s*/g, '; ')   // collapse newlines into '; '
  .replace(/\s{2,}/g, ' ')      // collapse runs of 2+ whitespace
  .replace(/;{2,}/g, ';')       // collapse runs of 2+ semicolons
  .trim()
  .replace(/^;+|;+$/g, '')      // strip leading/trailing semicolons
  .split(';')
  .map((segment) => segment.trim())
  .filter(Boolean)
  .join('; ');
```

A global greedy replace of `/\s*\n\s*/` rewrites exactly the maximal
whitespace runs that contain a newline; `/\s{2,}/g` and `/;{2,}/g` rewrite
exactly the maximal runs of length at least two. -/

/-- Rewriting applied to each maximal whitespace run by `/\s*\n\s*/g → "; "`. -/
def nlRunRepl (run : List Char) : List Char :=
  if '\n' ∈ run then [';', ' '] else run

/-- Rewriting applied to each maximal whitespace run by `/\s{2,}/g → " "`. -/
def wsRunRepl (run : List Char) : List Char :=
  if 2 ≤ run.length then [' '] else run

/-- Rewriting applied to each maximal semicolon run by `/;{2,}/g → ";"`. -/
def semiRunRepl (run : List Char) : List Char :=
  if 2 ≤ run.length then [';'] else run

/-- The character-list body of `sanitizeCookieString`. -/
def sanitizeChars (l : List Char) : List Char :=
  let s1 := collapseRuns isJsWs nlRunRepl l
  let s2 := collapseRuns isJsWs wsRunRepl s1
  let s3 := collapseRuns isSemi semiRunRepl s2
  let s4 := jsTrimChars s3
  let s5 := dropTrailing isSemi (s4.dropWhile isSemi)
  let pieces := ((splitOnChar ';' s5).map jsTrimChars).filter (fun s => s ≠ [])
  joinSep [';', ' '] pieces

/-- `sanitizeCookieString` from `src/lib/cookieUtils.ts`. -/
def sanitizeCookieString (s : String) : String :=
  (sanitizeChars s.data).asString

/-! ## `cookieUtils.ts` — parsing, required tokens, staleness -/

/-- JavaScript object assignment `acc[key] = value` on an association list:
an existing key is overwritten in place, a new key is appended. -/
def upsert (acc : List (String × String)) (k v : String) :
    List (String × String) :=
  if acc.any (fun kv => kv.1 = k) then
    acc.map (fun kv => if kv.1 = k then (k, v) else kv)
  else acc ++ [(k, v)]

/-- One step of the `reduce` inside `parseCookieString`: split the segment on
`=`, trim the key, drop segments with an empty key, re-join and trim the
value. -/
def parseSegmentStep (acc : List (String × String)) (seg : List Char) :
    List (String × String) :=
  match splitOnChar '=' seg with
  | [] => acc
  | rawKey :: rawValue =>
    let key := jsTrimChars rawKey
    if key = [] then acc
    else upsert acc key.asString (jsTrimChars (joinSep ['='] rawValue)).asString

/-- `parseCookieString` from `src/lib/cookieUtils.ts`: sanitize, split on
`;`, fold the segments into a key/value record. -/
def parseCookieString (s : String) : List (String × String) :=
  (splitOnChar ';' (sanitizeCookieString s).data).foldl parseSegmentStep []

/-- `getCookieValue` from `src/lib/cookieUtils.ts` (`parsed[name] ?? null`). -/
def getCookieValue (s name : String) : Option String :=
  match (parseCookieString s).find? (fun kv => kv.1 = name) with
  | some kv => some kv.2
  | none => none

/-- The two required token names checked by `hasRequiredCookieTokens`. -/
def requiredCookieTokens : List String := ["__Secure-1PSID", "__Secure-1PSIDTS"]

/-- `hasRequiredCookieTokens` from `src/lib/cookieUtils.ts`: every required
token name followed by `=` occurs as a substring of the sanitized string. -/
def hasRequiredCookieTokens (s : String) : Bool :=
  let cleaned := (sanitizeCookieString s).data
  requiredCookieTokens.all fun tok =>
    decide ((tok ++ "=").data <:+: cleaned)

/-- `COOKIE_REFRESH_THRESHOLD_MS = 1000 * 60 * 60 * 12` (12 hours). -/
def cookieRefreshThresholdMs : Int := 1000 * 60 * 60 * 12

/-- `areCookiesStale` from `src/lib/cookieUtils.ts`.  Timestamps are epoch
milliseconds; `none` models both a `null` timestamp and an unparsable ISO
string (`Number.isNaN` branch). -/
def areCookiesStale (timestampMs : Option Int) (now : Int) : Bool :=
  match timestampMs with
  | none => true
  | some ts => decide (now - ts > cookieRefreshThresholdMs)

/-! ## Data model (`src/types/index.ts`) -/

/-- `MessageRole = 'user' | 'assistant' | 'system'`. -/
inductive MessageRole
  | user
  | assistant
  | system
deriving DecidableEq, Repr

/-- `Message` (the fields the bridge touches; `isStreaming?: boolean`
is `false` when absent, matching JavaScript truthiness). -/
structure Message where
  id : String
  content : String
  role : MessageRole
  timestampMs : Int
  isStreaming : Bool
deriving DecidableEq, Repr

/-! ## `geminiClient.ts` -/

/-- `GEMINI_ORIGIN` from `src/server/geminiClient.ts`. -/
def geminiOrig : String := "https://gemini.google.com"

/-- `GEMINI_REFERER` from `src/server/geminiClient.ts`. -/
def geminiReferer : String := "https://gemini.google.com/app"

/-- The default `USER_AGENT` from `src/server/geminiClient.ts` (the
`GEMINI_USER_AGENT` environment override is irrelevant to every claim). -/
def defaultUserAgent : String :=
  "Mozilla/5.0 (Windows NT 10.0; Win64; x64) AppleWebKit/537.36 (KHTML, like Gecko) Chrome/119.0.0.0 Safari/537.36"

/-- The error taxonomy produced by `performGeminiRequest`:
`CookieValidationError`, the rate-limit `Error`, and the generic upstream
`Error` carrying the status and body text. -/
inductive GeminiError
  | credential (msg : String)
  | rateLimit (msg : String)
  | upstream (status : Nat) (body : String)
deriving DecidableEq, Repr

/-- `error.message` for each of the thrown errors. -/
def GeminiError.message : GeminiError → String
  | .credential m => m
  | .rateLimit m => m
  | .upstream st body => "Gemini request failed (" ++ toString st ++ "): " ++ body

/-- Message of the `CookieValidationError` thrown for an empty cookie string. -/
def emptyCookieMsg : String :=
  "Missing cookie string. Please paste your Gemini session cookies."

/-- Message of the `CookieValidationError` thrown for missing required tokens. -/
def missingTokensMsg : String :=
  "Please paste valid Gemini cookies from gemini.google.com. Cookies should include PSID, NID, or __Secure-* tokens."

/-- Message of the `CookieValidationError` thrown when no SAPISID resolves. -/
def missingSapSidMsg : String :=
  "Required cookie SAPISID/__Secure-1PSID not found. Please ensure you copied all cookies."

/-- Message of the `CookieValidationError` thrown on an upstream 401/403. -/
def expiredCookiesMsg : String :=
  "Cookies expired or invalid. Please refresh them from gemini.google.com."

/-- Message of the rate-limit `Error` thrown on an upstream 429. -/
def rateLimitMsg : String := "Too many requests. Please try again later."

/-- JavaScript `a || b` on `string | null` values: `a` unless it is `null`
or the empty string. -/
def jsOrStr (a b : Option String) : Option String :=
  match a with
  | some s => if s = "" then b else some s
  | none => b

/-- JavaScript truthiness of a `string | null` value. -/
def jsTruthyStr (a : Option String) : Bool :=
  match a with
  | some s => s ≠ ""
  | none => false

/-- The `getCookieValue(...) || getCookieValue(...) || getCookieValue(...)`
chain inside `createSapSidHash`, applied to the sanitized cookie string. -/
def lookupSapSid (sanitized : String) : Option String :=
  jsOrStr (getCookieValue sanitized "SAPISID")
    (jsOrStr (getCookieValue sanitized "__Secure-3PSID")
      (getCookieValue sanitized "__Secure-1PSID"))

/-- `createSapSidHash` from `src/server/geminiClient.ts`.  `sha1Hex` stands
for Node's `crypto.createHash('sha1').update(·).digest('hex')` (an external
library primitive), `nowSec` for `Math.floor(Date.now() / 1000)`. -/
def createSapSidHash (sha1Hex : String → String) (nowSec : Nat)
    (cookies : String) : Except GeminiError String :=
  match lookupSapSid (sanitizeCookieString cookies) with
  | none => .error (.credential missingSapSidMsg)
  | some v =>
    if v = "" then .error (.credential missingSapSidMsg)
    else
      .ok (toString nowSec ++ "_" ++
        sha1Hex (toString nowSec ++ " " ++ v ++ " " ++ geminiOrig))

/-- `buildHeaders` from `src/server/geminiClient.ts`: sanitizes the cookies,
derives the SAPISIDHASH (which can throw the missing-SAPISID
`CookieValidationError`), and assembles the transport headers.

```js
const sanitizedCookies = sanitizeCookieString(cookies);
const sapSidHash = createSapSidHash(sanitizedCookies);
return { 'Content-Type': ..., Cookie: sanitizedCookies, ...,
         Authorization: `SAPISIDHASH ${sapSidHash}`, ... };
``` -/
def buildHeaders (sha1Hex : String → String) (nowSec : Nat)
    (cookies : String) : Except GeminiError (List (String × String)) :=
  match createSapSidHash sha1Hex nowSec (sanitizeCookieString cookies) with
  | .error e => .error e
  | .ok sapSidHash => .ok
    [("Content-Type", "application/json"),
     ("Accept", "application/json, text/event-stream"),
     ("Cookie", sanitizeCookieString cookies),
     ("Origin", geminiOrig),
     ("Referer", geminiReferer),
     ("User-Agent", defaultUserAgent),
     ("Authorization", "SAPISIDHASH " ++ sapSidHash),
     ("x-origin", geminiOrig),
     ("x-goog-authuser", "0"),
     ("Sec-Fetch-Site", "same-site"),
     ("Sec-Fetch-Mode", "cors"),
     ("Sec-Fetch-Dest", "empty")]

/-- One turn of the upstream wire format (`{role, parts:[{text}]}`). -/
structure WireTurn where
  role : String
  parts : List String
deriving DecidableEq, Repr

/-- `buildContents` from `src/server/geminiClient.ts`. -/
def buildContents (history : List Message) (message : String) : List WireTurn :=
  (history.filter
      (fun m => m.role = MessageRole.user ∨ m.role = MessageRole.assistant)).map
    (fun m =>
      { role := if m.role = MessageRole.user then "user" else "model",
        parts := [m.content] })
  ++ [{ role := "user", parts := [message] }]

/-- An upstream HTTP response: status code, body text and (for 2xx) the
JSON-parsed body, kept abstract in `α`. -/
structure HttpResponse (α : Type) where
  status : Nat
  bodyText : String
  jsonBody : α

/-- `Response.ok` of the Fetch API: status in the range 200-299. -/
def responseOk (status : Nat) : Bool := decide (200 ≤ status ∧ status < 300)

/-- `assertRequiredCookies` from `src/server/geminiClient.ts`:
`!cookies || !cookies.trim()` fails first, then `!hasRequiredCookieTokens`. -/
def assertRequiredCookies (cookies : String) : Except GeminiError Unit :=
  if jsTrimChars cookies.data = [] then .error (.credential emptyCookieMsg)
  else if hasRequiredCookieTokens cookies = false then
    .error (.credential missingTokensMsg)
  else .ok ()

/-- The response-handling tail of `performGeminiRequest`: 401/403 →
`CookieValidationError`, 429 → rate-limit `Error`, other non-2xx → generic
`Error` with status and body text, 2xx → JSON body. -/
def handleGeminiResponse {α : Type} (resp : HttpResponse α) :
    Except GeminiError α :=
  if resp.status = 401 ∨ resp.status = 403 then
    .error (.credential expiredCookiesMsg)
  else if resp.status = 429 then .error (.rateLimit rateLimitMsg)
  else if responseOk resp.status = false then
    .error (.upstream resp.status resp.bodyText)
  else .ok resp.jsonBody

/-- `performGeminiRequest` from `src/server/geminiClient.ts`, with the single
`fetch` replaced by the upstream response it returns.  The cookie pre-check
and the header construction (whose `createSapSidHash` can throw) both run
before the fetch, so when either fails the result does not depend on
`resp` — no request is dispatched. -/
def performGeminiRequest {α : Type} (sha1Hex : String → String)
    (nowSec : Nat) (cookies : String) (resp : HttpResponse α) :
    Except GeminiError α :=
  match assertRequiredCookies cookies with
  | .error e => .error e
  | .ok _ =>
    match buildHeaders sha1Hex nowSec cookies with
    | .error e => .error e
    | .ok _ => handleGeminiResponse resp

/-- The request payload of a chat call (`generationConfig` is a fixed record
of floating-point sampling constants, irrelevant to every claim). -/
structure ChatPayload where
  contents : List WireTurn
deriving DecidableEq, Repr

/-- Outcome of `sendGeminiChatRequest`: the payload it sends and the result
of `performGeminiRequest` on the upstream response. -/
structure ChatAttempt (α : Type) where
  payload : ChatPayload
  result : Except GeminiError α

/-- `sendGeminiChatRequest` from `src/server/geminiClient.ts`. -/
def sendGeminiChatRequest {α : Type} (sha1Hex : String → String)
    (nowSec : Nat) (cookies message : String)
    (history : List Message) (resp : HttpResponse α) : ChatAttempt α :=
  { payload := { contents := buildContents history message },
    result := performGeminiRequest sha1Hex nowSec cookies resp }

/-- Result shape of `validateGeminiCookies`. -/
structure ValidationResult where
  valid : Bool
  message : Option String
deriving DecidableEq, Repr

/-- `validateGeminiCookies` from `src/server/geminiClient.ts`: a probe chat
call with message `"Ping"` and empty history; any thrown error is mapped to
`{valid:false, message}`, success to `{valid:true}`. -/
def validateGeminiCookies {α : Type} (sha1Hex : String → String)
    (nowSec : Nat) (cookies : String) (resp : HttpResponse α) :
    ValidationResult :=
  match (sendGeminiChatRequest sha1Hex nowSec cookies "Ping" [] resp).result with
  | .ok _ => { valid := true, message := none }
  | .error e => { valid := false, message := some e.message }

/-- The `POST` handler of the validate endpoint (`app/api/auth/validate`):
it forwards to `validateGeminiCookies` and answers 200 when valid, 401
otherwise (400 for a missing cookie string is handled before this point). -/
def validateRoutePost {α : Type} (sha1Hex : String → String)
    (nowSec : Nat) (cookies : String) (resp : HttpResponse α) :
    Nat × ValidationResult :=
  let validation := validateGeminiCookies sha1Hex nowSec cookies resp
  (if validation.valid then 200 else 401, validation)

/-! ## Credential lifecycle (chat store + `useChat` hook)

The store fields relevant to the credential lifecycle, with ISO timestamp
strings modelled as epoch milliseconds (`none` = `null`). -/

/-- `CookieStatus` without its `null` member; the store field is an
`Option CookieStatus` whose `none` is the `null` pre-state. -/
inductive CookieStatus
  | unknown
  | valid
  | invalid
  | expired
deriving DecidableEq, Repr

/-- The credential-lifecycle slice of the zustand chat store. -/
structure StoreState where
  cookies : Option String
  cookieStatus : Option CookieStatus
  cookiesSetAt : Option Int
  lastValidatedAt : Option Int
deriving DecidableEq, Repr

/-- `shouldRefreshCookies` from the chat store:
`areCookiesStale(state.lastValidatedAt || state.cookiesSetAt)`.  A stored
ISO timestamp string is never empty, so `||` is `Option.orElse` here. -/
def shouldRefreshCookies (s : StoreState) (now : Int) : Bool :=
  areCookiesStale (s.lastValidatedAt <|> s.cookiesSetAt) now

/-- `setCookies` from the chat store (the credential fields). -/
def setCookies (s : StoreState) (raw : String) (validated : Bool)
    (now : Int) : StoreState :=
  { cookies := some (sanitizeCookieString raw),
    cookieStatus := some (if validated then .valid else .unknown),
    cookiesSetAt := some now,
    lastValidatedAt := if validated then some now else s.lastValidatedAt }

/-- `markCookiesValidated` from the chat store. -/
def markCookiesValidated (s : StoreState) (now : Int) : StoreState :=
  { s with
    cookieStatus := some .valid,
    lastValidatedAt := some now,
    cookiesSetAt := match s.cookiesSetAt with
      | some t => some t
      | none => some now }

/-- `logout` from the chat store (the credential fields). -/
def logoutStore (_s : StoreState) : StoreState :=
  { cookies := none, cookieStatus := none,
    cookiesSetAt := none, lastValidatedAt := none }

/-- The staleness re-evaluation in `onRehydrateStorage`: a `valid` status
whose reference timestamp is stale becomes `expired`. -/
def rehydrateStaleCheck (s : StoreState) (now : Int) : StoreState :=
  if s.cookieStatus = some CookieStatus.valid ∧
      areCookiesStale (s.lastValidatedAt <|> s.cookiesSetAt) now = true then
    { s with cookieStatus := some .expired }
  else s

/-- How the credential gate at the top of `useChat.sendMessage` disposes of
a send. -/
inductive GateResult
  | noCookies
  | blockedInvalid
  | blockedExpired
  | proceed
deriving DecidableEq, Repr

/-- The credential gate of `useChat.sendMessage` (also `useTTS`): the new
store state together with the disposition.

```js
if (!cookies) { ... return; }
if (cookieStatus === 'invalid') { ... return; }
if (cookieStatus === 'expired' || shouldRefreshCookies()) {
  setCookieStatus('expired'); ... return;
}
``` -/
def sendMessageGate (s : StoreState) (now : Int) : StoreState × GateResult :=
  if jsTruthyStr s.cookies = false then (s, .noCookies)
  else if s.cookieStatus = some CookieStatus.invalid then (s, .blockedInvalid)
  else if s.cookieStatus = some CookieStatus.expired ∨
      shouldRefreshCookies s now = true then
    ({ s with cookieStatus := some .expired }, .blockedExpired)
  else (s, .proceed)

/-- Events driving the credential lifecycle.  `send st ok now` is a chat (or
speech) exchange whose local HTTP response has status `st` and success flag
`ok`; `paste` is `setCookies`; `rehydrate` is the staleness re-evaluation on
load. -/
inductive LifecycleEvent
  | send (status : Nat) (success : Bool) (now : Int)
  | paste (raw : String) (validated : Bool) (now : Int)
  | logout
  | rehydrate (now : Int)
deriving DecidableEq, Repr

/-- The credential-status effect of one lifecycle event, read off
`useChat.sendMessage`, `setCookies`, `logout` and `onRehydrateStorage`:

* a gated-out send leaves the store as the gate left it;
* a dispatched send with `!response.ok || !data?.success` sets the status to
  `invalid` exactly when the response status is 401 or 403;
* a successful send runs `markCookiesValidated`. -/
def lifecycleStep (s : StoreState) : LifecycleEvent → StoreState
  | .send status success now =>
    match sendMessageGate s now with
    | (s', .proceed) =>
      if responseOk status = false ∨ success = false then
        if status = 401 ∨ status = 403 then
          { s' with cookieStatus := some .invalid }
        else s'
      else markCookiesValidated s' now
    | (s', _) => s'
  | .paste raw validated now => setCookies s raw validated now
  | .logout => logoutStore s
  | .rehydrate now => rehydrateStaleCheck s now

/-! ## `useChat.buildHistoryPayload` -/

/-- `buildHistoryPayload` from the `useChat` hook: drop every mid-generation
assistant message, then drop a trailing user message. -/
def buildHistoryPayload (messages : List Message) : List Message :=
  match (messages.filter
      (fun m => ¬(m.role = MessageRole.assistant ∧ m.isStreaming = true))).getLast? with
  | some m =>
    if m.role = MessageRole.user then
      (messages.filter
        (fun m => ¬(m.role = MessageRole.assistant ∧ m.isStreaming = true))).dropLast
    else
      messages.filter
        (fun m => ¬(m.role = MessageRole.assistant ∧ m.isStreaming = true))
  | none =>
    messages.filter
      (fun m => ¬(m.role = MessageRole.assistant ∧ m.isStreaming = true))

/-- No two adjacent whitespace characters. -/
def wsPairFree (a b : Char) : Prop := ¬(isJsWs a = true ∧ isJsWs b = true)

/-- No two adjacent semicolons. -/
def semiPairFree (a b : Char) : Prop := ¬(a = ';' ∧ b = ';')

/-- A canonical cookie segment: nonempty, free of `;` and newlines, trimmed
at both ends, no two adjacent whitespace characters. -/
def Seg (s : List Char) : Prop :=
  s ≠ [] ∧ (∀ c ∈ s, c ≠ ';' ∧ c ≠ '\n') ∧
  (∀ c, s.head? = some c → isJsWs c = false) ∧
  (∀ c, s.getLast? = some c → isJsWs c = false) ∧
  List.Chain' wsPairFree s

/-- A canonical cookie string: a `"; "`-join of canonical segments. -/
def Canonical (l : List Char) : Prop :=
  ∃ segs, (∀ s ∈ segs, Seg s) ∧ l = joinSep [';', ' '] segs

/-! ## Properties of the sanitize pipeline

The fixed points of `sanitizeChars` are exactly the strings of the canonical
`"key=value; key=value"` shape: `"; "`-joins of nonempty segments that are
free of `;` and newlines, trimmed at both ends and containing no two
adjacent whitespace characters. -/

theorem isJsWs_semi : isJsWs ';' = false := by decide

theorem isJsWs_space : isJsWs ' ' = true := by decide

theorem isJsWs_nl : isJsWs '\n' = true := by decide

theorem head?_dropWhile_false (p : Char → Bool) (l : List Char) (c : Char)
    (h : (l.dropWhile p).head? = some c) : p c = false := by
  have hgen := List.head?_dropWhile_not p l
  rw [h] at hgen
  exact hgen

theorem collapseRuns_head?_neg (p : Char → Bool) (f : List Char → List Char)
    (l : List Char) (h : ∀ c, l.head? = some c → p c = false) :
    (collapseRuns p f l).head? = l.head? := by
  cases l with
  | nil => rfl
  | cons c rest =>
    have hc : p c = false := h c rfl
    rw [collapseRuns_cons_neg p f c rest (by simp [hc])]
    rfl

/-- A chain whose left-hand condition never holds. -/
theorem chain'_of_all {R : Char → Char → Prop} {l : List Char}
    (h : ∀ a ∈ l, ∀ b, R a b) : List.Chain' R l := by
  induction l with
  | nil => exact List.chain'_nil
  | cons a t ih =>
    refine List.chain'_cons'.mpr ⟨fun y _ => h a (by simp) y, ih ?_⟩
    exact fun x hx b => h x (by simp [hx]) b

/-! ### Run-replacement computation rules -/

theorem nlRunRepl_of_mem {run : List Char} (h : '\n' ∈ run) :
    nlRunRepl run = [';', ' '] := by simp [nlRunRepl, h]

theorem nlRunRepl_of_not_mem {run : List Char} (h : '\n' ∉ run) :
    nlRunRepl run = run := by simp [nlRunRepl, h]

theorem wsRunRepl_single (c : Char) : wsRunRepl [c] = [c] := by
  simp [wsRunRepl]

theorem wsRunRepl_pair (c a : Char) (u : List Char) :
    wsRunRepl (c :: a :: u) = [' '] := by
  unfold wsRunRepl
  rw [if_pos (by simp [List.length_cons])]

theorem semiRunRepl_single (c : Char) : semiRunRepl [c] = [c] := by
  simp [semiRunRepl]

theorem semiRunRepl_pair (c a : Char) (u : List Char) :
    semiRunRepl (c :: a :: u) = [';'] := by
  unfold semiRunRepl
  rw [if_pos (by simp [List.length_cons])]

/-! ### Stage 1: `/\s*\n\s*/g → "; "` leaves no newline behind -/

theorem step1_no_nl (l : List Char) :
    '\n' ∉ collapseRuns isJsWs nlRunRepl l := by
  induction l using runInduction isJsWs with
  | h0 => simp
  | h1 c t hp ih =>
    rw [collapseRuns_cons_neg _ _ _ _ hp]
    intro hmem
    rcases List.mem_cons.mp hmem with h | h
    · exact hp (h ▸ isJsWs_nl)
    · exact ih h
  | h2 c t hp ih =>
    rw [collapseRuns_cons_pos _ _ _ _ hp]
    intro hmem
    rcases List.mem_append.mp hmem with h | h
    · by_cases hc : '\n' ∈ c :: t.takeWhile isJsWs
      · rw [nlRunRepl_of_mem hc] at h
        exact absurd h (by decide)
      · rw [nlRunRepl_of_not_mem hc] at h
        exact hc h
    · exact ih h

/-! ### Stage 2: `/\s{2,}/g → " "` output has no adjacent whitespace -/

theorem step2_mem (l : List Char) :
    ∀ c ∈ collapseRuns isJsWs wsRunRepl l, c ∈ l ∨ c = ' ' := by
  induction l using runInduction isJsWs with
  | h0 => simp
  | h1 c t hp ih =>
    rw [collapseRuns_cons_neg _ _ _ _ hp]
    intro x hx
    rcases List.mem_cons.mp hx with h | h
    · exact Or.inl (by simp [h])
    · rcases ih x h with h' | h'
      · exact Or.inl (by simp [h'])
      · exact Or.inr h'
  | h2 c t hp ih =>
    rw [collapseRuns_cons_pos _ _ _ _ hp]
    intro x hx
    rcases List.mem_append.mp hx with h | h
    · cases htw : t.takeWhile isJsWs with
      | nil =>
        rw [htw, wsRunRepl_single] at h
        exact Or.inl (by simp [List.mem_singleton.mp h])
      | cons a u =>
        rw [htw, wsRunRepl_pair] at h
        exact Or.inr (List.mem_singleton.mp h)
    · rcases ih x h with h' | h'
      · exact Or.inl (List.mem_cons_of_mem _
          ((List.dropWhile_sublist _).subset h'))
      · exact Or.inr h'

theorem step2_no_nl (l : List Char) (h : '\n' ∉ l) :
    '\n' ∉ collapseRuns isJsWs wsRunRepl l := by
  intro hmem
  rcases step2_mem l '\n' hmem with h' | h'
  · exact h h'
  · exact absurd h' (by decide)

theorem step2_chain (l : List Char) :
    List.Chain' wsPairFree (collapseRuns isJsWs wsRunRepl l) := by
  induction l using runInduction isJsWs with
  | h0 => simp
  | h1 c t hp ih =>
    rw [collapseRuns_cons_neg _ _ _ _ hp]
    refine List.chain'_cons'.mpr ⟨fun y _ => ?_, ih⟩
    exact fun hpair => hp hpair.1
  | h2 c t hp ih =>
    rw [collapseRuns_cons_pos _ _ _ _ hp]
    have hsingle : ∃ w, wsRunRepl (c :: t.takeWhile isJsWs) = [w] := by
      cases htw : t.takeWhile isJsWs with
      | nil => exact ⟨c, wsRunRepl_single c⟩
      | cons a u => exact ⟨' ', wsRunRepl_pair c a u⟩
    obtain ⟨w, hw⟩ := hsingle
    rw [hw, List.singleton_append]
    refine List.chain'_cons'.mpr ⟨?_, ih⟩
    intro y hy
    have hhead : (collapseRuns isJsWs wsRunRepl (t.dropWhile isJsWs)).head? =
        (t.dropWhile isJsWs).head? := by
      refine collapseRuns_head?_neg _ _ _ ?_
      exact fun d hd => head?_dropWhile_false _ _ _ hd
    rw [hhead] at hy
    have hyws : isJsWs y = false := head?_dropWhile_false _ _ _ hy
    exact fun hpair => by simp [hyws] at hpair

/-! ### Stage 3: `/;{2,}/g → ";"` -/

theorem isSemi_eq (c : Char) : isSemi c = true ↔ c = ';' := by
  simp [isSemi]

/-- On a semicolon run (as produced by `collapseRuns isSemi`), the
replacement is always the single semicolon. -/
theorem semiRunRepl_of_all (c : Char) (u : List Char) (hc : isSemi c = true)
    (hu : ∀ a ∈ u, isSemi a = true) : semiRunRepl (c :: u) = [';'] := by
  cases u with
  | nil => simp [semiRunRepl_single, (isSemi_eq c).mp hc]
  | cons a v => exact semiRunRepl_pair c a v

theorem step3_head? (l : List Char) :
    (collapseRuns isSemi semiRunRepl l).head? = l.head? := by
  cases l with
  | nil => rfl
  | cons c rest =>
    by_cases hp : isSemi c
    · rw [collapseRuns_cons_pos _ _ _ _ hp,
        semiRunRepl_of_all c (rest.takeWhile isSemi) hp
          (fun a ha => List.mem_takeWhile_imp ha)]
      simp [(isSemi_eq c).mp hp]
    · rw [collapseRuns_cons_neg _ _ _ _ hp]
      rfl

theorem step3_mem (l : List Char) :
    ∀ c ∈ collapseRuns isSemi semiRunRepl l, c ∈ l ∨ c = ';' := by
  induction l using runInduction isSemi with
  | h0 => simp
  | h1 c t hp ih =>
    rw [collapseRuns_cons_neg _ _ _ _ hp]
    intro x hx
    rcases List.mem_cons.mp hx with h | h
    · exact Or.inl (by simp [h])
    · rcases ih x h with h' | h'
      · exact Or.inl (by simp [h'])
      · exact Or.inr h'
  | h2 c t hp ih =>
    rw [collapseRuns_cons_pos _ _ _ _ hp,
      semiRunRepl_of_all c (t.takeWhile isSemi) hp
        (fun a ha => List.mem_takeWhile_imp ha)]
    intro x hx
    rcases List.mem_append.mp hx with h | h
    · exact Or.inr (List.mem_singleton.mp h)
    · rcases ih x h with h' | h'
      · exact Or.inl (List.mem_cons_of_mem _
          ((List.dropWhile_sublist _).subset h'))
      · exact Or.inr h'

theorem step3_no_nl (l : List Char) (h : '\n' ∉ l) :
    '\n' ∉ collapseRuns isSemi semiRunRepl l := by
  intro hmem
  rcases step3_mem l '\n' hmem with h' | h'
  · exact h h'
  · exact absurd h' (by decide)

theorem step3_chain_ws (l : List Char) (hl : List.Chain' wsPairFree l) :
    List.Chain' wsPairFree (collapseRuns isSemi semiRunRepl l) := by
  induction l using runInduction isSemi with
  | h0 => simp
  | h1 c t hp ih =>
    rw [collapseRuns_cons_neg _ _ _ _ hp]
    refine List.chain'_cons'.mpr ⟨?_, ih (List.Chain'.tail hl)⟩
    intro y hy
    rw [step3_head? t] at hy
    exact (List.chain'_cons'.mp hl).1 y hy
  | h2 c t hp ih =>
    rw [collapseRuns_cons_pos _ _ _ _ hp,
      semiRunRepl_of_all c (t.takeWhile isSemi) hp
        (fun a ha => List.mem_takeWhile_imp ha), List.singleton_append]
    have htail : List.Chain' wsPairFree (t.dropWhile isSemi) :=
      List.Chain'.suffix (List.Chain'.tail hl) ( List.dropWhile_suffix isSemi)
    refine List.chain'_cons'.mpr ⟨?_, ih htail⟩
    intro y _
    exact fun hpair => by
      have : isJsWs ';' = true := hpair.1
      simp [isJsWs_semi] at this

theorem step3_chain_semi (l : List Char) :
    List.Chain' semiPairFree (collapseRuns isSemi semiRunRepl l) := by
  induction l using runInduction isSemi with
  | h0 => simp
  | h1 c t hp ih =>
    rw [collapseRuns_cons_neg _ _ _ _ hp]
    refine List.chain'_cons'.mpr ⟨?_, ih⟩
    intro y _
    exact fun hpair => hp ((isSemi_eq c).mpr hpair.1)
  | h2 c t hp ih =>
    rw [collapseRuns_cons_pos _ _ _ _ hp,
      semiRunRepl_of_all c (t.takeWhile isSemi) hp
        (fun a ha => List.mem_takeWhile_imp ha), List.singleton_append]
    refine List.chain'_cons'.mpr ⟨?_, ih⟩
    intro y hy
    have hhead : (collapseRuns isSemi semiRunRepl (t.dropWhile isSemi)).head? =
        (t.dropWhile isSemi).head? := step3_head? _
    rw [hhead] at hy
    have : isSemi y = false := head?_dropWhile_false _ _ _ hy
    exact fun hpair => by
      rw [hpair.2] at this
      simp [isSemi] at this

/-! ### Trimming and edge-stripping preserve the invariants -/

theorem dropTrailing_prefix (p : Char → Bool) (l : List Char) :
    dropTrailing p l <+: l := by
  unfold dropTrailing
  have h : l.reverse.dropWhile p <:+ l.reverse := List.dropWhile_suffix p
  have h₂ : (l.reverse.dropWhile p).reverse <+: l.reverse.reverse :=
    List.reverse_prefix.mpr h
  simpa using h₂

theorem jsTrimChars_infix (l : List Char) : jsTrimChars l <:+: l :=
  List.IsInfix.trans
    ( List.IsPrefix.isInfix ( dropTrailing_prefix isJsWs (l.dropWhile isJsWs)))
    ( List.IsSuffix.isInfix ( List.dropWhile_suffix isJsWs))

theorem dropWhile_eq_self_of_head (p : Char → Bool) (l : List Char)
    (h : ∀ c, l.head? = some c → p c = false) : l.dropWhile p = l := by
  cases l with
  | nil => rfl
  | cons c rest => simp [List.dropWhile_cons, h c rfl]

theorem dropTrailing_eq_self (p : Char → Bool) (l : List Char)
    (h : ∀ c, l.getLast? = some c → p c = false) : dropTrailing p l = l := by
  unfold dropTrailing
  rw [dropWhile_eq_self_of_head p l.reverse
    (fun c hc => h c (by rwa [← List.head?_reverse]))]
  exact List.reverse_reverse l

theorem head?_dropTrailing (p : Char → Bool) (l : List Char)
    (h : dropTrailing p l ≠ []) : (dropTrailing p l).head? = l.head? := by
  obtain ⟨t, ht⟩ := dropTrailing_prefix p l
  cases hdt : dropTrailing p l with
  | nil => exact absurd hdt h
  | cons c u =>
    rw [← ht, hdt]
    rfl

theorem getLast?_dropTrailing_false (p : Char → Bool) (l : List Char) (c : Char)
    (h : (dropTrailing p l).getLast? = some c) : p c = false := by
  unfold dropTrailing at h
  rw [List.getLast?_reverse] at h
  exact head?_dropWhile_false p l.reverse c h

theorem head?_jsTrimChars_false (l : List Char) (c : Char)
    (h : (jsTrimChars l).head? = some c) : isJsWs c = false := by
  unfold jsTrimChars at h
  have hne : dropTrailing isJsWs (l.dropWhile isJsWs) ≠ [] := by
    intro hnil
    rw [hnil] at h
    exact Option.noConfusion h
  rw [head?_dropTrailing _ _ hne] at h
  exact head?_dropWhile_false _ _ _ h

theorem getLast?_jsTrimChars_false (l : List Char) (c : Char)
    (h : (jsTrimChars l).getLast? = some c) : isJsWs c = false :=
  getLast?_dropTrailing_false _ _ _ h

/-! ### Splitting on `;` -/

theorem splitOnChar_ne_nil (sep : Char) (l : List Char) :
    splitOnChar sep l ≠ [] := by
  cases l with
  | nil => simp [splitOnChar]
  | cons c rest =>
    by_cases hc : c = sep
    · simp [splitOnChar, hc]
    · simp only [splitOnChar, if_neg hc]
      cases splitOnChar sep rest with
      | nil => simp
      | cons s ss => simp

theorem splitOnChar_sep_not_mem (sep : Char) (l : List Char) :
    ∀ s ∈ splitOnChar sep l, sep ∉ s := by
  induction l with
  | nil =>
    intro s hs
    simp [splitOnChar] at hs
    simp [hs]
  | cons c rest ih =>
    intro s hs
    by_cases hc : c = sep
    · rw [splitOnChar, if_pos hc] at hs
      rcases List.mem_cons.mp hs with h | h
      · simp [h]
      · exact ih s h
    · rw [splitOnChar, if_neg hc] at hs
      cases hsp : splitOnChar sep rest with
      | nil => exact absurd hsp (splitOnChar_ne_nil sep rest)
      | cons s₀ ss =>
        rw [hsp] at hs
        rcases List.mem_cons.mp hs with h | h
        · subst h
          intro hmem
          rcases List.mem_cons.mp hmem with h' | h'
          · exact hc h'.symm
          · exact ih s₀ (by simp [hsp]) h'
        · exact ih s (by simp [hsp, h])

/-- The structural decomposition of `splitOnChar`: the first piece is a
prefix, the rest are infixes. -/
theorem splitOnChar_pieces (sep : Char) (l : List Char) :
    ∃ s ss, splitOnChar sep l = s :: ss ∧ s <+: l ∧ ∀ t ∈ ss, t <:+: l := by
  induction l with
  | nil => exact ⟨[], [], rfl, List.nil_prefix, by simp⟩
  | cons c rest ih =>
    obtain ⟨s, ss, hsplit, hpre, hinf⟩ := ih
    by_cases hc : c = sep
    · refine ⟨[], s :: ss, by simp [splitOnChar, hc, hsplit], List.nil_prefix, ?_⟩
      intro t ht
      rcases List.mem_cons.mp ht with h | h
      · subst h
        exact List.infix_cons ( List.IsPrefix.isInfix hpre)
      · exact List.infix_cons (hinf t h)
    · refine ⟨c :: s, ss, ?_, List.cons_prefix_cons.mpr ⟨rfl, hpre⟩, ?_⟩
      · rw [splitOnChar, if_neg hc, hsplit]
      · intro t ht
        exact List.infix_cons (hinf t ht)

theorem splitOnChar_infix (sep : Char) (l : List Char) :
    ∀ s ∈ splitOnChar sep l, s <:+: l := by
  obtain ⟨s, ss, hsplit, hpre, hinf⟩ := splitOnChar_pieces sep l
  intro t ht
  rw [hsplit] at ht
  rcases List.mem_cons.mp ht with h | h
  · exact h ▸ List.IsPrefix.isInfix hpre
  · exact hinf t h

/-! ### The canonical form -/

/-- `sanitizeChars` always produces a canonical string. -/
theorem sanitize_canonical (l : List Char) : Canonical (sanitizeChars l) := by
  set s1 := collapseRuns isJsWs nlRunRepl l with hs1
  set s2 := collapseRuns isJsWs wsRunRepl s1 with hs2
  set s3 := collapseRuns isSemi semiRunRepl s2 with hs3
  set s4 := jsTrimChars s3 with hs4
  set s5 := dropTrailing isSemi (s4.dropWhile isSemi) with hs5
  set pieces := ((splitOnChar ';' s5).map jsTrimChars).filter
    (fun s => s ≠ []) with hpieces
  have hjoin : sanitizeChars l = joinSep [';', ' '] pieces := rfl
  have hnl5 : '\n' ∉ s5 := by
    have h3 : '\n' ∉ s3 := step3_no_nl s2 (step2_no_nl s1 (step1_no_nl l))
    intro hmem
    have h4mem : '\n' ∈ s4 :=
      (List.dropWhile_sublist isSemi).subset
        (( dropTrailing_prefix isSemi _).sublist.subset hmem)
    exact h3 (( jsTrimChars_infix s3).sublist.subset h4mem)
  have hchain5 : List.Chain' wsPairFree s5 := by
    have h3 : List.Chain' wsPairFree s3 := step3_chain_ws s2 (step2_chain s1)
    have h4 : List.Chain' wsPairFree s4 :=
      List.Chain'.infix h3 ( jsTrimChars_infix s3)
    exact List.Chain'.prefix
      ( List.Chain'.suffix h4 ( List.dropWhile_suffix isSemi))
      ( dropTrailing_prefix isSemi _)
  refine ⟨pieces, ?_, hjoin⟩
  intro q hq
  have hq' := List.mem_filter.mp hq
  obtain ⟨piece, hpiece, hqeq⟩ := List.mem_map.mp hq'.1
  have hqne : q ≠ [] := by simpa using hq'.2
  have hpinf : piece <:+: s5 := splitOnChar_infix ';' s5 piece hpiece
  have hqsub : q ⊆ piece := by
    rw [← hqeq]
    exact ( jsTrimChars_infix piece).sublist.subset
  refine ⟨hqne, ?_, ?_, ?_, ?_⟩
  · intro c hc
    constructor
    · intro hcsemi
      exact splitOnChar_sep_not_mem ';' s5 piece hpiece (hcsemi ▸ hqsub hc)
    · intro hcnl
      exact hnl5 (hcnl ▸ hpinf.sublist.subset (hqsub hc))
  · intro c hc
    exact head?_jsTrimChars_false piece c (hqeq ▸ hc)
  · intro c hc
    exact getLast?_jsTrimChars_false piece c (hqeq ▸ hc)
  · rw [← hqeq]
    exact List.Chain'.infix ( List.Chain'.infix hchain5 hpinf)
      ( jsTrimChars_infix piece)

/-! ### Identity of each stage on canonical strings -/

/-- Stage 1 is the identity on newline-free strings. -/
theorem step1_id (l : List Char) (h : '\n' ∉ l) :
    collapseRuns isJsWs nlRunRepl l = l := by
  induction l using runInduction isJsWs with
  | h0 => simp
  | h1 c t hp ih =>
    rw [collapseRuns_cons_neg _ _ _ _ hp,
      ih (fun hm => h (List.mem_cons_of_mem c hm))]
  | h2 c t hp ih =>
    rw [collapseRuns_cons_pos _ _ _ _ hp]
    have hrun : '\n' ∉ c :: t.takeWhile isJsWs := by
      intro hm
      rcases List.mem_cons.mp hm with hm | hm
      · exact h (by rw [hm]; exact List.mem_cons_self c t)
      · exact h (List.mem_cons_of_mem c ((t.takeWhile_sublist _).subset hm))
    rw [nlRunRepl_of_not_mem hrun,
      ih (fun hm => h (List.mem_cons_of_mem c
        ((List.dropWhile_sublist _).subset hm)))]
    simp [List.takeWhile_append_dropWhile]

/-- A run-collapser that fixes singletons is the identity on strings with no
two adjacent `p`-characters. -/
theorem collapseRuns_id_of_chain (p : Char → Bool) (f : List Char → List Char)
    (hf : ∀ c, p c = true → f [c] = [c]) (l : List Char)
    (hl : List.Chain' (fun a b => ¬(p a = true ∧ p b = true)) l) :
    collapseRuns p f l = l := by
  induction l using runInduction p with
  | h0 => simp
  | h1 c t hp ih =>
    rw [collapseRuns_cons_neg _ _ _ _ hp, ih (List.Chain'.tail hl)]
  | h2 c t hp ih =>
    rw [collapseRuns_cons_pos _ _ _ _ hp]
    have htake : t.takeWhile p = [] := by
      cases t with
      | nil => rfl
      | cons d u =>
        have hpd : ¬(p c = true ∧ p d = true) :=
          (List.chain'_cons'.mp hl).1 d rfl
        have : p d = false := by
          cases hpdb : p d
          · rfl
          · exact absurd ⟨by simpa using hp, hpdb⟩ hpd
        simp [List.takeWhile_cons, this]
    have hdrop : t.dropWhile p = t := by
      cases t with
      | nil => rfl
      | cons d u =>
        have hpd : ¬(p c = true ∧ p d = true) :=
          (List.chain'_cons'.mp hl).1 d rfl
        have : p d = false := by
          cases hpdb : p d
          · rfl
          · exact absurd ⟨by simpa using hp, hpdb⟩ hpd
        simp [List.dropWhile_cons, this]
    have htail : List.Chain' (fun a b => ¬(p a = true ∧ p b = true)) t := by
      simpa using List.Chain'.tail hl
    have harg : List.Chain' (fun a b => ¬(p a = true ∧ p b = true))
        (t.dropWhile p) := by
      rw [hdrop]; exact htail
    rw [htake, hf c (by simpa using hp), ih harg, hdrop]
    rfl

/-! ### `joinSep` facts for canonical strings -/

theorem joinSep_cons_cons (sep s s' : List Char) (ss : List (List Char)) :
    joinSep sep (s :: s' :: ss) = s ++ sep ++ joinSep sep (s' :: ss) := rfl

theorem mem_joinSep {c : Char} {sep : List Char} {segs : List (List Char)}
    (h : c ∈ joinSep sep segs) : c ∈ sep ∨ ∃ s ∈ segs, c ∈ s := by
  induction segs with
  | nil => simp [joinSep] at h
  | cons s rest ih =>
    cases rest with
    | nil => exact Or.inr ⟨s, by simp, by simpa [joinSep] using h⟩
    | cons s' t =>
      rw [joinSep_cons_cons, List.append_assoc] at h
      rcases List.mem_append.mp h with h | h
      · exact Or.inr ⟨s, by simp, h⟩
      · rcases List.mem_append.mp h with h | h
        · exact Or.inl h
        · rcases ih h with h' | ⟨x, hx, hcx⟩
          · exact Or.inl h'
          · exact Or.inr ⟨x, by simp [List.mem_cons_of_mem, hx], hcx⟩

theorem head?_joinSep_cons (sep : List Char) (s : List Char)
    (ss : List (List Char)) (hs : s ≠ []) :
    (joinSep sep (s :: ss)).head? = s.head? := by
  cases ss with
  | nil => rfl
  | cons s' t =>
    rw [joinSep_cons_cons, List.append_assoc, List.head?_append]
    cases s with
    | nil => exact absurd rfl hs
    | cons a u => rfl

theorem getLast?_joinSep (sep : List Char) (segs : List (List Char))
    (s : List Char) (hlast : segs.getLast? = some s) (hs : s ≠ []) :
    (joinSep sep segs).getLast? = s.getLast? := by
  induction segs with
  | nil => exact absurd hlast (by simp)
  | cons x rest ih =>
    cases rest with
    | nil =>
      have : x = s := by simpa using hlast
      simp [joinSep, this]
    | cons y t =>
      have hlast' : (y :: t).getLast? = some s := by
        rwa [List.getLast?_cons_cons] at hlast
      rw [joinSep_cons_cons, List.getLast?_append, ih hlast']
      obtain ⟨c, hc⟩ : ∃ c, s.getLast? = some c := by
        cases hsl : s.getLast? with
        | none => exact absurd (List.getLast?_eq_none_iff.mp hsl) hs
        | some c => exact ⟨c, rfl⟩
      simp [hc]

theorem no_nl_joinSep (segs : List (List Char)) (h : ∀ s ∈ segs, Seg s) :
    '\n' ∉ joinSep [';', ' '] segs := by
  intro hmem
  rcases mem_joinSep hmem with h' | ⟨s, hs, hcs⟩
  · exact absurd h' (by decide)
  · exact ((h s hs).2.1 '\n' hcs).2 rfl

theorem chain_ws_joinSep (segs : List (List Char)) (h : ∀ s ∈ segs, Seg s) :
    List.Chain' wsPairFree (joinSep [';', ' '] segs) := by
  induction segs with
  | nil => simp [joinSep]
  | cons s rest ih =>
    cases rest with
    | nil => simpa [joinSep] using (h s (by simp)).2.2.2.2
    | cons s' t =>
      rw [joinSep_cons_cons, List.append_assoc]
      refine List.chain'_append.mpr ⟨(h s (by simp)).2.2.2.2, ?_, ?_⟩
      · show List.Chain' wsPairFree (';' :: ' ' :: joinSep [';', ' '] (s' :: t))
        refine List.chain'_cons'.mpr ⟨?_, List.chain'_cons'.mpr ⟨?_, ?_⟩⟩
        · intro y _
          exact fun hpair => by simp [isJsWs_semi] at hpair
        · intro y hy
          rw [head?_joinSep_cons _ _ _ (h s' (by simp)).1] at hy
          have : isJsWs y = false := (h s' (by simp)).2.2.1 y hy
          exact fun hpair => by simp [this] at hpair
        · exact ih (fun x hx => h x (List.mem_cons_of_mem s hx))
      · intro x hx y hy
        have hxs : isJsWs x = false := (h s (by simp)).2.2.2.1 x hx
        exact fun hpair => by simp [hxs] at hpair

theorem chain_semi_joinSep (segs : List (List Char)) (h : ∀ s ∈ segs, Seg s) :
    List.Chain' semiPairFree (joinSep [';', ' '] segs) := by
  induction segs with
  | nil => simp [joinSep]
  | cons s rest ih =>
    have hchain : List.Chain' semiPairFree s :=
      chain'_of_all (fun a ha b => fun hpair =>
        ((h s (by simp)).2.1 a ha).1 hpair.1)
    cases rest with
    | nil => simpa [joinSep] using hchain
    | cons s' t =>
      rw [joinSep_cons_cons, List.append_assoc]
      refine List.chain'_append.mpr ⟨hchain, ?_, ?_⟩
      · show List.Chain' semiPairFree (';' :: ' ' :: joinSep [';', ' '] (s' :: t))
        refine List.chain'_cons'.mpr ⟨?_, List.chain'_cons'.mpr ⟨?_, ?_⟩⟩
        · intro y hy
          have hy' : y = ' ' := by
            have := hy
            simp at this
            exact this.symm
          exact fun hpair => by simp [hy'] at hpair
        · intro y _
          exact fun hpair => by simp at hpair
        · exact ih (fun x hx => h x (List.mem_cons_of_mem s hx))
      · intro x hx y hy
        have hxs : x ≠ ';' :=
          ((h s (by simp)).2.1 x (List.mem_of_mem_getLast? (hx ▸ rfl))).1
        exact fun hpair => hxs hpair.1

/-! ### Trim and strip are the identity on canonical strings -/

theorem trimLike_eq_self (p : Char → Bool) (l : List Char)
    (hh : ∀ c, l.head? = some c → p c = false)
    (hl : ∀ c, l.getLast? = some c → p c = false) :
    dropTrailing p (l.dropWhile p) = l := by
  rw [dropWhile_eq_self_of_head p l hh, dropTrailing_eq_self p l hl]

theorem jsTrimChars_eq_self (l : List Char)
    (hh : ∀ c, l.head? = some c → isJsWs c = false)
    (hl : ∀ c, l.getLast? = some c → isJsWs c = false) :
    jsTrimChars l = l :=
  trimLike_eq_self isJsWs l hh hl

theorem jsTrimChars_space_cons (t : List Char)
    (hh : ∀ c, t.head? = some c → isJsWs c = false)
    (hl : ∀ c, t.getLast? = some c → isJsWs c = false) :
    jsTrimChars (' ' :: t) = t := by
  unfold jsTrimChars
  rw [List.dropWhile_cons, if_pos (by simp [isJsWs_space]),
    dropWhile_eq_self_of_head isJsWs t hh, dropTrailing_eq_self isJsWs t hl]

/-! ### Splitting a canonical join -/

theorem splitOnChar_no_sep_self (sep : Char) (l : List Char) (h : sep ∉ l) :
    splitOnChar sep l = [l] := by
  induction l with
  | nil => rfl
  | cons c rest ih =>
    have hc : ¬ c = sep := fun hcs => h (by simp [hcs])
    rw [splitOnChar, if_neg hc, ih (fun hm => h (List.mem_cons_of_mem c hm))]

theorem splitOnChar_append_no_sep (sep : Char) (s r : List Char)
    (hs : sep ∉ s) :
    splitOnChar sep (s ++ sep :: r) = s :: splitOnChar sep r := by
  induction s with
  | nil => simp [splitOnChar]
  | cons c u ih =>
    have hc : ¬ c = sep := fun hcs => hs (by simp [hcs])
    rw [List.cons_append, splitOnChar, if_neg hc,
      ih (fun hm => hs (List.mem_cons_of_mem c hm))]

theorem splitOnChar_joinSep (s : List Char) (ss : List (List Char))
    (h : ∀ x ∈ s :: ss, ';' ∉ x) :
    splitOnChar ';' (joinSep [';', ' '] (s :: ss)) =
      s :: ss.map (fun t => ' ' :: t) := by
  induction ss generalizing s with
  | nil => simpa [joinSep] using splitOnChar_no_sep_self ';' s (h s (by simp))
  | cons s' t ih =>
    have hjs : joinSep [';', ' '] (s :: s' :: t) =
        s ++ ';' :: (' ' :: joinSep [';', ' '] (s' :: t)) := by
      rw [joinSep_cons_cons]
      simp
    rw [hjs, splitOnChar_append_no_sep ';' s _ (h s (by simp))]
    have hsp : splitOnChar ';' (' ' :: joinSep [';', ' '] (s' :: t)) =
        (' ' :: s') :: t.map (fun x => ' ' :: x) := by
      rw [splitOnChar, if_neg (by decide),
        ih s' (fun x hx => h x (List.mem_cons_of_mem s hx))]
    rw [hsp]
    rfl

/-! ### Canonical strings are fixed points of `sanitizeChars` -/

theorem canonical_fixed (l : List Char) (h : Canonical l) :
    sanitizeChars l = l := by
  obtain ⟨segs, hsegs, rfl⟩ := h
  cases segs with
  | nil => rfl
  | cons s ss =>
    set L := joinSep [';', ' '] (s :: ss) with hL
    have hsSeg : Seg s := hsegs s (by simp)
    have hheadL : ∀ c, L.head? = some c → isJsWs c = false ∧ c ≠ ';' := by
      intro c hc
      rw [head?_joinSep_cons _ _ _ hsSeg.1] at hc
      exact ⟨hsSeg.2.2.1 c hc,
        (hsSeg.2.1 c (List.mem_of_mem_head? (hc ▸ rfl))).1⟩
    have hlastSeg : ∃ sl, (s :: ss).getLast? = some sl ∧ Seg sl := by
      cases hgl : (s :: ss).getLast? with
      | none => exact absurd (List.getLast?_eq_none_iff.mp hgl) (by simp)
      | some sl =>
        exact ⟨sl, rfl, hsegs sl (List.mem_of_mem_getLast? (hgl ▸ rfl))⟩
    obtain ⟨sl, hsl, hslSeg⟩ := hlastSeg
    have hlastL : ∀ c, L.getLast? = some c → isJsWs c = false ∧ c ≠ ';' := by
      intro c hc
      rw [getLast?_joinSep _ _ sl hsl hslSeg.1] at hc
      exact ⟨hslSeg.2.2.2.1 c hc,
        (hslSeg.2.1 c (List.mem_of_mem_getLast? (hc ▸ rfl))).1⟩
    have h1 : collapseRuns isJsWs nlRunRepl L = L :=
      step1_id L (no_nl_joinSep _ hsegs)
    have h2 : collapseRuns isJsWs wsRunRepl L = L := by
      refine collapseRuns_id_of_chain isJsWs wsRunRepl
        (fun c _ => wsRunRepl_single c) L ?_
      exact chain_ws_joinSep _ hsegs
    have h3 : collapseRuns isSemi semiRunRepl L = L := by
      refine collapseRuns_id_of_chain isSemi semiRunRepl
        (fun c _ => semiRunRepl_single c) L ?_
      refine List.Chain'.imp ?_ (chain_semi_joinSep _ hsegs)
      intro a b hab hpair
      exact hab ⟨(isSemi_eq a).mp hpair.1, (isSemi_eq b).mp hpair.2⟩
    have h4 : jsTrimChars L = L :=
      jsTrimChars_eq_self L (fun c hc => (hheadL c hc).1)
        (fun c hc => (hlastL c hc).1)
    have h5 : dropTrailing isSemi (L.dropWhile isSemi) = L := by
      refine trimLike_eq_self isSemi L ?_ ?_
      · intro c hc
        have : c ≠ ';' := (hheadL c hc).2
        simpa [isSemi] using this
      · intro c hc
        have : c ≠ ';' := (hlastL c hc).2
        simpa [isSemi] using this
    have hsplit : splitOnChar ';' L = s :: ss.map (fun t => ' ' :: t) :=
      splitOnChar_joinSep s ss
        (fun x hx c => ((hsegs x hx).2.1 ';' c).1 rfl)
    have hmap : (splitOnChar ';' L).map jsTrimChars = s :: ss := by
      rw [hsplit]
      simp only [List.map_cons, List.map_map]
      congr 1
      · exact jsTrimChars_eq_self s hsSeg.2.2.1 hsSeg.2.2.2.1
      · rw [← List.map_id ss]
        rw [List.map_map]
        refine List.map_congr_left ?_
        intro x hx
        have hxSeg : Seg x := hsegs x (by simp [hx])
        simp only [Function.comp, id]
        exact jsTrimChars_space_cons x hxSeg.2.2.1 hxSeg.2.2.2.1
    have hfil : (s :: ss).filter (fun x => x ≠ []) = s :: ss := by
      refine List.filter_eq_self.mpr ?_
      intro x hx
      simpa using (hsegs x hx).1
    show joinSep [';', ' ']
      (((splitOnChar ';' (dropTrailing isSemi
        ((jsTrimChars (collapseRuns isSemi semiRunRepl
          (collapseRuns isJsWs wsRunRepl
            (collapseRuns isJsWs nlRunRepl L)))).dropWhile isSemi))).map
              jsTrimChars).filter (fun x => x ≠ [])) = L
    rw [h1, h2, h3, h4, h5, hmap, hfil]

/-- `sanitizeChars` is idempotent. -/
theorem sanitizeChars_idem (l : List Char) :
    sanitizeChars (sanitizeChars l) = sanitizeChars l :=
  canonical_fixed (sanitizeChars l) (sanitize_canonical l)

/-! ## The claims -/

/-- C9: `sanitize` is idempotent — for every input string `x`,
`sanitize(sanitize(x)) = sanitize(x)`. -/
theorem sanitizeCookieString_idem (x : String) :
    sanitizeCookieString (sanitizeCookieString x) = sanitizeCookieString x := by
  unfold sanitizeCookieString
  show ((sanitizeChars (sanitizeChars x.data)).asString) = _
  rw [sanitizeChars_idem]

/-- C8: `hasRequiredTokens(raw)` is true exactly when, after sanitizing,
both `__Secure-1PSID` and `__Secure-1PSIDTS` appear followed by `=` as
substrings of the canonical string; it is true regardless of order and
surrounding whitespace, and false when only one of the two is present. -/
theorem hasRequiredCookieTokens_spec (raw : String) :
    (hasRequiredCookieTokens raw = true ↔
      ("__Secure-1PSID=".data <:+: (sanitizeCookieString raw).data ∧
       "__Secure-1PSIDTS=".data <:+: (sanitizeCookieString raw).data))
    ∧ hasRequiredCookieTokens "__Secure-1PSID=abc" = false
    ∧ hasRequiredCookieTokens "__Secure-1PSIDTS=def" = false
    ∧ hasRequiredCookieTokens "__Secure-1PSIDTS=def; __Secure-1PSID=abc" = true
    ∧ hasRequiredCookieTokens "  __Secure-1PSID=abc \n   __Secure-1PSIDTS=def  " =
        true := by
  refine ⟨?_, by decide, by decide, by decide, by decide⟩
  have h1 : ("__Secure-1PSID" ++ "=") = "__Secure-1PSID=" := by decide
  have h2 : ("__Secure-1PSIDTS" ++ "=") = "__Secure-1PSIDTS=" := by decide
  unfold hasRequiredCookieTokens requiredCookieTokens
  rw [List.all_cons, List.all_cons, List.all_nil, h1, h2]
  simp [Bool.and_eq_true, decide_eq_true_iff]

/-- C7: `buildContents` keeps exactly the user/assistant history entries in
order (dropping system entries), maps `user → "user"`, `assistant →
"model"`, wraps each text as a single part, and appends a final `"user"`
turn carrying the new message; in particular on history
`[user:"hi", assistant:"hello"]` with new message `"bye"` it yields roles
`["user","model","user"]` with texts `["hi","hello","bye"]`. -/
theorem buildContents_spec :
    (∀ (history : List Message) (message : String),
      buildContents history message =
        (history.filter (fun m => m.role ≠ MessageRole.system)).map
          (fun m =>
            { role := if m.role = MessageRole.user then "user" else "model",
              parts := [m.content] })
        ++ [{ role := "user", parts := [message] }])
    ∧ buildContents
        [{ id := "1", content := "hi", role := MessageRole.user,
           timestampMs := 0, isStreaming := false },
         { id := "2", content := "hello", role := MessageRole.assistant,
           timestampMs := 1, isStreaming := false }] "bye" =
      [{ role := "user", parts := ["hi"] },
       { role := "model", parts := ["hello"] },
       { role := "user", parts := ["bye"] }] := by
  constructor
  · intro history message
    unfold buildContents
    have hfil : history.filter
        (fun m => m.role = MessageRole.user ∨ m.role = MessageRole.assistant) =
        history.filter (fun m => m.role ≠ MessageRole.system) := by
      refine List.filter_congr ?_
      intro m _
      cases m.role <;> rfl
    rw [hfil]
  · decide

/-- C6: `buildHistoryPayload` first removes every assistant message whose
streaming flag is set; if the last remaining message has role user it then
removes that one trailing message; a conversation ending in a completed
assistant message is returned unchanged. -/
theorem buildHistoryPayload_spec (messages : List Message) :
    (∀ m, (messages.filter
        (fun x => ¬(x.role = MessageRole.assistant ∧ x.isStreaming = true))).getLast?
          = some m →
      m.role = MessageRole.user →
      buildHistoryPayload messages =
        (messages.filter
          (fun x => ¬(x.role = MessageRole.assistant ∧ x.isStreaming = true))).dropLast)
    ∧ (∀ m, (messages.filter
        (fun x => ¬(x.role = MessageRole.assistant ∧ x.isStreaming = true))).getLast?
          = some m →
      m.role ≠ MessageRole.user →
      buildHistoryPayload messages =
        messages.filter
          (fun x => ¬(x.role = MessageRole.assistant ∧ x.isStreaming = true)))
    ∧ ((∀ m ∈ messages, ¬(m.role = MessageRole.assistant ∧ m.isStreaming = true)) →
      ∀ m, messages.getLast? = some m → m.role = MessageRole.assistant →
      buildHistoryPayload messages = messages) := by
  refine ⟨?_, ?_, ?_⟩
  · intro m hm hrole
    unfold buildHistoryPayload
    rw [hm]
    simp [hrole]
  · intro m hm hrole
    unfold buildHistoryPayload
    rw [hm]
    simp [hrole]
  · intro hall m hm hrole
    have hfil : messages.filter
        (fun x => ¬(x.role = MessageRole.assistant ∧ x.isStreaming = true)) =
        messages := by
      refine List.filter_eq_self.mpr ?_
      intro x hx
      exact decide_eq_true (hall x hx)
    unfold buildHistoryPayload
    rw [hfil, hm]
    have : ¬ m.role = MessageRole.user := by
      rw [hrole]
      intro hcontra
      exact MessageRole.noConfusion hcontra
    simp [this]

/-- C6 witness: a history ending in an unanswered user message loses that
message; a history ending in a completed assistant message is unchanged. -/
theorem buildHistoryPayload_spec_witness :
    buildHistoryPayload
      [{ id := "1", content := "hi", role := MessageRole.user,
         timestampMs := 0, isStreaming := false },
       { id := "2", content := "yo", role := MessageRole.assistant,
         timestampMs := 1, isStreaming := false },
       { id := "3", content := "more", role := MessageRole.user,
         timestampMs := 2, isStreaming := false }] =
      [{ id := "1", content := "hi", role := MessageRole.user,
         timestampMs := 0, isStreaming := false },
       { id := "2", content := "yo", role := MessageRole.assistant,
         timestampMs := 1, isStreaming := false }]
    ∧ buildHistoryPayload
      [{ id := "1", content := "hi", role := MessageRole.user,
         timestampMs := 0, isStreaming := false },
       { id := "2", content := "yo", role := MessageRole.assistant,
         timestampMs := 1, isStreaming := false }] =
      [{ id := "1", content := "hi", role := MessageRole.user,
         timestampMs := 0, isStreaming := false },
       { id := "2", content := "yo", role := MessageRole.assistant,
         timestampMs := 1, isStreaming := false }] := by
  constructor
  · exact (buildHistoryPayload_spec _).1
      { id := "3", content := "more", role := MessageRole.user,
        timestampMs := 2, isStreaming := false } (by decide) rfl
  · exact (buildHistoryPayload_spec _).2.2 (by decide)
      { id := "2", content := "yo", role := MessageRole.assistant,
        timestampMs := 1, isStreaming := false } (by decide) rfl

theorem jsOrStr_falsy (a b : Option String) (h : jsTruthyStr a = false) :
    jsOrStr a b = b := by
  cases a with
  | none => rfl
  | some s =>
    have hs : s = "" := by simpa [jsTruthyStr] using h
    simp [jsOrStr, hs]

theorem jsOrStr_truthy (a b : Option String) (t : String) (ha : a = some t)
    (ht : t ≠ "") : jsOrStr a b = some t := by
  subst ha
  simp [jsOrStr, ht]

theorem createSapSidHash_ok (sha1Hex : String → String) (ts : Nat)
    (cookies t : String)
    (hlk : lookupSapSid (sanitizeCookieString cookies) = some t)
    (htne : t ≠ "") :
    createSapSidHash sha1Hex ts cookies =
      .ok (toString ts ++ "_" ++
        sha1Hex (toString ts ++ " " ++ t ++ " " ++
          "https://gemini.google.com")) := by
  unfold createSapSidHash
  rw [hlk]
  simp [geminiOrig, htne]

theorem createSapSidHash_err (sha1Hex : String → String) (ts : Nat)
    (cookies : String)
    (hlk : jsTruthyStr (lookupSapSid (sanitizeCookieString cookies)) = false) :
    createSapSidHash sha1Hex ts cookies =
      .error (.credential missingSapSidMsg) := by
  unfold createSapSidHash
  cases hv : lookupSapSid (sanitizeCookieString cookies) with
  | none => rfl
  | some v =>
    have hveq : v = "" := by
      rw [hv] at hlk
      simpa [jsTruthyStr] using hlk
    simp [hveq]

/-- C1: `createSapSidHash` tries `SAPISID`, `__Secure-3PSID`,
`__Secure-1PSID` in order on the sanitized cookie string (a token resolves
when present with a nonempty value, matching `||` on `string | null`); if
none resolves it throws a credential error, and when value `t` resolves at
Unix-seconds `ts` it returns exactly `ts ++ "_" ++ sha1Hex (ts ++ " " ++ t
++ " " ++ "https://gemini.google.com")`. -/
theorem createSapSidHash_spec (sha1Hex : String → String) (ts : Nat)
    (cookies : String) :
    (jsTruthyStr (getCookieValue (sanitizeCookieString cookies) "SAPISID") = false →
     jsTruthyStr (getCookieValue (sanitizeCookieString cookies) "__Secure-3PSID") = false →
     jsTruthyStr (getCookieValue (sanitizeCookieString cookies) "__Secure-1PSID") = false →
     createSapSidHash sha1Hex ts cookies =
       .error (.credential missingSapSidMsg))
    ∧ (∀ t, getCookieValue (sanitizeCookieString cookies) "SAPISID" = some t →
       t ≠ "" →
       createSapSidHash sha1Hex ts cookies =
         .ok (toString ts ++ "_" ++
           sha1Hex (toString ts ++ " " ++ t ++ " " ++ "https://gemini.google.com")))
    ∧ (jsTruthyStr (getCookieValue (sanitizeCookieString cookies) "SAPISID") = false →
       ∀ t, getCookieValue (sanitizeCookieString cookies) "__Secure-3PSID" = some t →
       t ≠ "" →
       createSapSidHash sha1Hex ts cookies =
         .ok (toString ts ++ "_" ++
           sha1Hex (toString ts ++ " " ++ t ++ " " ++ "https://gemini.google.com")))
    ∧ (jsTruthyStr (getCookieValue (sanitizeCookieString cookies) "SAPISID") = false →
       jsTruthyStr (getCookieValue (sanitizeCookieString cookies) "__Secure-3PSID") = false →
       ∀ t, getCookieValue (sanitizeCookieString cookies) "__Secure-1PSID" = some t →
       t ≠ "" →
       createSapSidHash sha1Hex ts cookies =
         .ok (toString ts ++ "_" ++
           sha1Hex (toString ts ++ " " ++ t ++ " " ++ "https://gemini.google.com"))) := by
  refine ⟨?_, ?_, ?_, ?_⟩
  · intro h1 h2 h3
    refine createSapSidHash_err sha1Hex ts cookies ?_
    unfold lookupSapSid
    rw [jsOrStr_falsy _ _ h1, jsOrStr_falsy _ _ h2]
    exact h3
  · intro t ht htne
    refine createSapSidHash_ok sha1Hex ts cookies t ?_ htne
    unfold lookupSapSid
    exact jsOrStr_truthy _ _ t ht htne
  · intro h1 t ht htne
    refine createSapSidHash_ok sha1Hex ts cookies t ?_ htne
    unfold lookupSapSid
    rw [jsOrStr_falsy _ _ h1]
    exact jsOrStr_truthy _ _ t ht htne
  · intro h1 h2 t ht htne
    refine createSapSidHash_ok sha1Hex ts cookies t ?_ htne
    unfold lookupSapSid
    rw [jsOrStr_falsy _ _ h1, jsOrStr_falsy _ _ h2]
    exact ht

/-- C1 witness: with `SAPISID=abc` present the signature is built from
`abc`; with only a `__Secure-1PSID` token it falls through to it; with no
resolving token the call fails with the credential error. -/
theorem createSapSidHash_spec_witness :
    createSapSidHash (fun s => s) 7 "SAPISID=abc; x=y" =
      .ok (toString 7 ++ "_" ++
        (toString 7 ++ " " ++ "abc" ++ " " ++ "https://gemini.google.com"))
    ∧ createSapSidHash (fun s => s) 7 "__Secure-1PSID=zz" =
      .ok (toString 7 ++ "_" ++
        (toString 7 ++ " " ++ "zz" ++ " " ++ "https://gemini.google.com"))
    ∧ createSapSidHash (fun s => s) 7 "foo=bar" =
      .error (.credential missingSapSidMsg) := by
  refine ⟨?_, ?_, ?_⟩
  · exact (createSapSidHash_spec (fun s => s) 7 "SAPISID=abc; x=y").2.1
      "abc" (by decide) (by decide)
  · exact (createSapSidHash_spec (fun s => s) 7 "__Secure-1PSID=zz").2.2.2
      (by decide) (by decide) "zz" (by decide) (by decide)
  · exact (createSapSidHash_spec (fun s => s) 7 "foo=bar").1
      (by decide) (by decide) (by decide)

theorem jsTruthyStr_true (o : Option String) (h : jsTruthyStr o = true) :
    ∃ t, o = some t ∧ t ≠ "" := by
  cases o with
  | none => exact absurd h (by simp [jsTruthyStr])
  | some s => exact ⟨s, rfl, by simpa [jsTruthyStr] using h⟩

theorem sanitizeCookieString_fixed (s : String) :
    sanitizeCookieString (sanitizeCookieString s) = sanitizeCookieString s := by
  unfold sanitizeCookieString
  show ((sanitizeChars (sanitizeChars s.data)).asString) = _
  rw [sanitizeChars_idem]

/-- C2 counterexample: the cookie string `"__Secure-1PSID=; __Secure-1PSIDTS=b"`
passes the pre-check (it is nonempty and contains both required tokens), so
the claim as stated demands that a 200 response be parsed as JSON; the code
instead throws the missing-SAPISID `CookieValidationError` inside
`buildHeaders` before any request is dispatched, because the only
SAPISID-family token present has an empty value. -/
theorem performGeminiRequest_counterexample :
    jsTrimChars ("__Secure-1PSID=; __Secure-1PSIDTS=b" : String).data ≠ []
    ∧ hasRequiredCookieTokens "__Secure-1PSID=; __Secure-1PSIDTS=b" = true
    ∧ responseOk 200 = true
    ∧ performGeminiRequest (fun s => s) 7 "__Secure-1PSID=; __Secure-1PSIDTS=b"
        ({ status := 200, bodyText := "", jsonBody := 42 } : HttpResponse Nat) =
      .error (.credential missingSapSidMsg)
    ∧ performGeminiRequest (fun s => s) 7 "__Secure-1PSID=; __Secure-1PSIDTS=b"
        ({ status := 200, bodyText := "", jsonBody := 42 } : HttpResponse Nat) ≠
      .ok 42 := by
  have h : performGeminiRequest (fun s => s) 7 "__Secure-1PSID=; __Secure-1PSIDTS=b"
      ({ status := 200, bodyText := "", jsonBody := 42 } : HttpResponse Nat) =
      .error (.credential missingSapSidMsg) := rfl
  exact ⟨by decide, by decide, by decide, h,
    fun hcontra => Except.noConfusion (h.symm.trans hcontra)⟩

/-- C2 (amended): `performGeminiRequest` raises a credential error before
any network call when the cookie string is blank or lacks the required
tokens, and likewise — still before any network call — when no
SAPISID-family token resolves to a nonempty value while building the signed
header; in each of these cases the result is a constant that does not
depend on the upstream response.  Otherwise 401/403 → credential error,
429 → rate-limit error, any other non-2xx → error carrying status and body
text, 2xx → the JSON body. -/
theorem performGeminiRequest_spec (α : Type) (sha1Hex : String → String)
    (nowSec : Nat) (cookies : String) (resp : HttpResponse α) :
    (jsTrimChars cookies.data = [] →
      performGeminiRequest sha1Hex nowSec cookies resp =
        .error (.credential emptyCookieMsg))
    ∧ (jsTrimChars cookies.data ≠ [] → hasRequiredCookieTokens cookies = false →
      performGeminiRequest sha1Hex nowSec cookies resp =
        .error (.credential missingTokensMsg))
    ∧ (jsTrimChars cookies.data ≠ [] → hasRequiredCookieTokens cookies = true →
       jsTruthyStr (lookupSapSid (sanitizeCookieString cookies)) = false →
      performGeminiRequest sha1Hex nowSec cookies resp =
        .error (.credential missingSapSidMsg))
    ∧ (jsTrimChars cookies.data ≠ [] → hasRequiredCookieTokens cookies = true →
       jsTruthyStr (lookupSapSid (sanitizeCookieString cookies)) = true →
      ((resp.status = 401 ∨ resp.status = 403 →
         performGeminiRequest sha1Hex nowSec cookies resp =
           .error (.credential expiredCookiesMsg))
       ∧ (resp.status = 429 →
         performGeminiRequest sha1Hex nowSec cookies resp =
           .error (.rateLimit rateLimitMsg))
       ∧ (responseOk resp.status = false → resp.status ≠ 401 →
          resp.status ≠ 403 → resp.status ≠ 429 →
         performGeminiRequest sha1Hex nowSec cookies resp =
           .error (.upstream resp.status resp.bodyText))
       ∧ (responseOk resp.status = true →
         performGeminiRequest sha1Hex nowSec cookies resp =
           .ok resp.jsonBody))) := by
  refine ⟨?_, ?_, ?_, ?_⟩
  · intro h
    simp [performGeminiRequest, assertRequiredCookies, h]
  · intro h1 h2
    simp [performGeminiRequest, assertRequiredCookies, h1, h2]
  · intro h1 h2 hsap
    have hpre : assertRequiredCookies cookies = .ok () := by
      simp [assertRequiredCookies, h1, h2]
    have hid : sanitizeCookieString (sanitizeCookieString cookies) =
        sanitizeCookieString cookies := sanitizeCookieString_fixed cookies
    have hcs : createSapSidHash sha1Hex nowSec (sanitizeCookieString cookies) =
        .error (.credential missingSapSidMsg) := by
      refine createSapSidHash_err sha1Hex nowSec (sanitizeCookieString cookies) ?_
      rw [hid]
      exact hsap
    have hbh : buildHeaders sha1Hex nowSec cookies =
        .error (.credential missingSapSidMsg) := by
      unfold buildHeaders
      rw [hcs]
    simp [performGeminiRequest, hpre, hbh]
  · intro h1 h2 hsap
    have hpre : assertRequiredCookies cookies = .ok () := by
      simp [assertRequiredCookies, h1, h2]
    have hid : sanitizeCookieString (sanitizeCookieString cookies) =
        sanitizeCookieString cookies := sanitizeCookieString_fixed cookies
    obtain ⟨t, hsome, htne⟩ := jsTruthyStr_true _ hsap
    have hcs : createSapSidHash sha1Hex nowSec (sanitizeCookieString cookies) =
        .ok (toString nowSec ++ "_" ++
          sha1Hex (toString nowSec ++ " " ++ t ++ " " ++
            "https://gemini.google.com")) := by
      refine createSapSidHash_ok sha1Hex nowSec (sanitizeCookieString cookies) t
        ?_ htne
      rw [hid]
      exact hsome
    have hbh : ∃ hdrs, buildHeaders sha1Hex nowSec cookies = .ok hdrs := by
      unfold buildHeaders
      rw [hcs]
      exact ⟨_, rfl⟩
    obtain ⟨hdrs, hbh⟩ := hbh
    have hperf : performGeminiRequest sha1Hex nowSec cookies resp =
        handleGeminiResponse resp := by
      simp [performGeminiRequest, hpre, hbh]
    refine ⟨?_, ?_, ?_, ?_⟩
    · intro h
      rw [hperf]
      simp [handleGeminiResponse, h]
    · intro h
      rw [hperf]
      simp [handleGeminiResponse, h]
    · intro hok h401 h403 h429
      rw [hperf]
      simp [handleGeminiResponse, h401, h403, h429, hok]
    · intro hok
      have hlt : 200 ≤ resp.status ∧ resp.status < 300 :=
        of_decide_eq_true (by simpa [responseOk] using hok)
      have h401 : resp.status ≠ 401 := by omega
      have h403 : resp.status ≠ 403 := by omega
      have h429 : resp.status ≠ 429 := by omega
      rw [hperf]
      simp [handleGeminiResponse, h401, h403, h429, hok]

/-- C2 witness: with both required tokens present and a resolving
`__Secure-1PSID` value, a 200 yields the JSON body, a 401 the credential
error and a 500 the upstream error; with an empty cookie string, and with
required tokens whose SAPISID-family value is empty, the credential error
is raised for every response alike. -/
theorem performGeminiRequest_spec_witness :
    performGeminiRequest (fun s => s) 7 "__Secure-1PSID=a; __Secure-1PSIDTS=b"
      ({ status := 200, bodyText := "", jsonBody := 42 } : HttpResponse Nat) =
      .ok 42
    ∧ performGeminiRequest (fun s => s) 7 "__Secure-1PSID=a; __Secure-1PSIDTS=b"
      ({ status := 401, bodyText := "", jsonBody := 0 } : HttpResponse Nat) =
      .error (.credential expiredCookiesMsg)
    ∧ performGeminiRequest (fun s => s) 7 "__Secure-1PSID=a; __Secure-1PSIDTS=b"
      ({ status := 500, bodyText := "boom", jsonBody := 0 } : HttpResponse Nat) =
      .error (.upstream 500 "boom")
    ∧ performGeminiRequest (fun s => s) 7 ""
      ({ status := 200, bodyText := "", jsonBody := 0 } : HttpResponse Nat) =
      .error (.credential emptyCookieMsg)
    ∧ performGeminiRequest (fun s => s) 7 "__Secure-1PSID=; __Secure-1PSIDTS=b"
      ({ status := 200, bodyText := "", jsonBody := 0 } : HttpResponse Nat) =
      .error (.credential missingSapSidMsg) := by
  refine ⟨?_, ?_, ?_, ?_, ?_⟩
  · exact ((performGeminiRequest_spec Nat (fun s => s) 7 _ _).2.2.2
      (by decide) (by decide) (by decide)).2.2.2 (by decide)
  · exact ((performGeminiRequest_spec Nat (fun s => s) 7 _ _).2.2.2
      (by decide) (by decide) (by decide)).1 (Or.inl rfl)
  · exact ((performGeminiRequest_spec Nat (fun s => s) 7 _ _).2.2.2
      (by decide) (by decide) (by decide)).2.2.1
      (by decide) (by decide) (by decide) (by decide)
  · exact (performGeminiRequest_spec Nat (fun s => s) 7 _ _).1 (by decide)
  · exact (performGeminiRequest_spec Nat (fun s => s) 7 _ _).2.2.1
      (by decide) (by decide) (by decide)

/-- C5: the validate endpoint's operation performs a minimal chat call with
probe message `"Ping"` and empty history; every error — including the
missing-SAPISID credential error thrown while building the signed header —
maps to `{valid:false, message}` and success maps to `{valid:true}`; the
route answers 200 when valid and 401 otherwise. -/
theorem validateGeminiCookies_spec (α : Type) (sha1Hex : String → String)
    (nowSec : Nat) (cookies : String) (resp : HttpResponse α) :
    (sendGeminiChatRequest sha1Hex nowSec cookies "Ping"
        ([] : List Message) resp).payload.contents
      = [{ role := "user", parts := ["Ping"] }]
    ∧ (∀ e, (sendGeminiChatRequest sha1Hex nowSec cookies "Ping"
        ([] : List Message) resp).result = .error e →
      validateGeminiCookies sha1Hex nowSec cookies resp =
        { valid := false, message := some e.message })
    ∧ (∀ a, (sendGeminiChatRequest sha1Hex nowSec cookies "Ping"
        ([] : List Message) resp).result = .ok a →
      validateGeminiCookies sha1Hex nowSec cookies resp =
        { valid := true, message := none })
    ∧ validateRoutePost sha1Hex nowSec cookies resp =
        (if (validateGeminiCookies sha1Hex nowSec cookies resp).valid then 200
          else 401,
          validateGeminiCookies sha1Hex nowSec cookies resp) := by
  refine ⟨rfl, ?_, ?_, rfl⟩
  · intro e he
    unfold validateGeminiCookies
    rw [he]
  · intro a ha
    unfold validateGeminiCookies
    rw [ha]

/-- C5 witness: with well-formed cookies a 200 probe response validates, an
upstream 500 maps to `{valid:false}` carrying the error message, and a
cookie string whose only SAPISID-family token is empty maps to
`{valid:false}` carrying the missing-SAPISID message. -/
theorem validateGeminiCookies_spec_witness :
    validateGeminiCookies (fun s => s) 7 "__Secure-1PSID=a; __Secure-1PSIDTS=b"
      ({ status := 200, bodyText := "", jsonBody := 1 } : HttpResponse Nat) =
      { valid := true, message := none }
    ∧ validateGeminiCookies (fun s => s) 7 "__Secure-1PSID=a; __Secure-1PSIDTS=b"
      ({ status := 500, bodyText := "boom", jsonBody := 0 } : HttpResponse Nat) =
      { valid := false,
        message := some (GeminiError.upstream 500 "boom").message }
    ∧ validateGeminiCookies (fun s => s) 7 "__Secure-1PSID=; __Secure-1PSIDTS=b"
      ({ status := 200, bodyText := "", jsonBody := 0 } : HttpResponse Nat) =
      { valid := false,
        message := some (GeminiError.credential missingSapSidMsg).message } := by
  refine ⟨?_, ?_, ?_⟩
  · exact (validateGeminiCookies_spec Nat (fun s => s) 7 _ _).2.2.1 1 (by rfl)
  · exact (validateGeminiCookies_spec Nat (fun s => s) 7 _ _).2.1
      (GeminiError.upstream 500 "boom") (by rfl)
  · exact (validateGeminiCookies_spec Nat (fun s => s) 7 _ _).2.1
      (GeminiError.credential missingSapSidMsg) (by rfl)

/-- C3: the credential gate of `sendMessage` blocks `invalid` immediately;
it blocks `expired`, and `valid` whose reference timestamp
(`lastValidatedAt`, else `cookiesSetAt`) is stale, setting the status to
`expired`; and a send proceeds only from a fresh `valid` or `unknown`
status. -/
theorem sendMessageGate_spec (s : StoreState) (now : Int) :
    (jsTruthyStr s.cookies = true → s.cookieStatus = some CookieStatus.invalid →
      sendMessageGate s now = (s, GateResult.blockedInvalid))
    ∧ (jsTruthyStr s.cookies = true →
       (s.cookieStatus = some CookieStatus.expired ∨
        (s.cookieStatus = some CookieStatus.valid ∧
         areCookiesStale (s.lastValidatedAt <|> s.cookiesSetAt) now = true)) →
      sendMessageGate s now =
        ({ s with cookieStatus := some CookieStatus.expired },
          GateResult.blockedExpired))
    ∧ (∀ st, s.cookieStatus = some st →
       (sendMessageGate s now).2 = GateResult.proceed →
       (st = CookieStatus.valid ∨ st = CookieStatus.unknown) ∧
         areCookiesStale (s.lastValidatedAt <|> s.cookiesSetAt) now = false) := by
  refine ⟨?_, ?_, ?_⟩
  · intro hc hinv
    unfold sendMessageGate
    rw [if_neg (by simp [hc]), if_pos hinv]
  · intro hc hblock
    have hninv : ¬ s.cookieStatus = some CookieStatus.invalid := by
      rcases hblock with h | ⟨h, _⟩ <;> simp [h]
    have hcond : s.cookieStatus = some CookieStatus.expired ∨
        shouldRefreshCookies s now = true := by
      rcases hblock with h | ⟨h, hstale⟩
      · exact Or.inl h
      · exact Or.inr (by simpa [shouldRefreshCookies] using hstale)
    unfold sendMessageGate
    rw [if_neg (by simp [hc]), if_neg hninv, if_pos hcond]
  · intro st hst hproceed
    unfold sendMessageGate at hproceed
    by_cases hc : jsTruthyStr s.cookies = false
    · rw [if_pos hc] at hproceed
      exact absurd hproceed (by simp)
    · rw [if_neg hc] at hproceed
      by_cases hinv : s.cookieStatus = some CookieStatus.invalid
      · rw [if_pos hinv] at hproceed
        exact absurd hproceed (by simp)
      · rw [if_neg hinv] at hproceed
        by_cases hexp : s.cookieStatus = some CookieStatus.expired ∨
            shouldRefreshCookies s now = true
        · rw [if_pos hexp] at hproceed
          exact absurd hproceed (by simp)
        · rw [if_neg hexp] at hproceed
          push_neg at hexp
          obtain ⟨hnexp, hfresh⟩ := hexp
          have hstale : areCookiesStale (s.lastValidatedAt <|> s.cookiesSetAt)
              now = false := by
            have := hfresh
            unfold shouldRefreshCookies at this
            cases h : areCookiesStale (s.lastValidatedAt <|> s.cookiesSetAt) now
            · rfl
            · exact absurd h this
          refine ⟨?_, hstale⟩
          cases st with
          | valid => exact Or.inl rfl
          | unknown => exact Or.inr rfl
          | invalid => exact absurd hst hinv
          | expired => exact absurd hst hnexp

/-- C3 witness: an `invalid` credential blocks re-authentication-style; a
`valid` credential last validated 13 hours ago (threshold 12 hours) blocks
and becomes `expired`. -/
theorem sendMessageGate_spec_witness :
    sendMessageGate
      { cookies := some "c", cookieStatus := some CookieStatus.invalid,
        cookiesSetAt := some 0, lastValidatedAt := some 0 } 0 =
      ({ cookies := some "c", cookieStatus := some CookieStatus.invalid,
         cookiesSetAt := some 0, lastValidatedAt := some 0 },
        GateResult.blockedInvalid)
    ∧ sendMessageGate
      { cookies := some "c", cookieStatus := some CookieStatus.valid,
        cookiesSetAt := some 0, lastValidatedAt := some 0 } 46800000 =
      ({ cookies := some "c", cookieStatus := some CookieStatus.expired,
         cookiesSetAt := some 0, lastValidatedAt := some 0 },
        GateResult.blockedExpired)
    ∧ (sendMessageGate
      { cookies := some "c", cookieStatus := some CookieStatus.unknown,
        cookiesSetAt := some 0, lastValidatedAt := none } 1000).2 =
      GateResult.proceed := by
  refine ⟨?_, ?_, by decide⟩
  · exact (sendMessageGate_spec _ 0).1 (by decide) rfl
  · exact (sendMessageGate_spec _ 46800000).2.1 (by decide)
      (Or.inr ⟨rfl, by decide⟩)

theorem lifecycleStep_trap (s : StoreState) (e : LifecycleEvent)
    (h : s.cookieStatus = some CookieStatus.invalid ∨
      (s.cookieStatus = none ∧ jsTruthyStr s.cookies = false))
    (hnp : ∀ raw v now, e ≠ .paste raw v now) :
    (lifecycleStep s e).cookieStatus = some CookieStatus.invalid ∨
      ((lifecycleStep s e).cookieStatus = none ∧
        jsTruthyStr (lifecycleStep s e).cookies = false) := by
  cases e with
  | send status success now =>
    have hstep : lifecycleStep s (.send status success now) = s := by
      simp only [lifecycleStep]
      by_cases hc : jsTruthyStr s.cookies = false
      · rw [show sendMessageGate s now = (s, GateResult.noCookies) from by
          unfold sendMessageGate
          rw [if_pos hc]]
      · rcases h with hinv | ⟨_, hfalsy⟩
        · rw [show sendMessageGate s now = (s, GateResult.blockedInvalid) from by
            unfold sendMessageGate
            rw [if_neg hc, if_pos hinv]]
        · exact absurd hfalsy hc
    rw [hstep]
    exact h
  | paste raw v now => exact absurd rfl (hnp raw v now)
  | logout => exact Or.inr ⟨rfl, rfl⟩
  | rehydrate now =>
    have hstep : lifecycleStep s (.rehydrate now) = s := by
      simp only [lifecycleStep]
      unfold rehydrateStaleCheck
      rw [if_neg ?_]
      intro ⟨hval, _⟩
      rcases h with hinv | ⟨hnone, _⟩
      · rw [hinv] at hval
        exact Option.noConfusion hval fun hcs => CookieStatus.noConfusion hcs
      · rw [hnone] at hval
        exact Option.noConfusion hval
    rw [hstep]
    exact h

theorem foldl_lifecycle_trap (events : List LifecycleEvent) (s : StoreState)
    (h : s.cookieStatus = some CookieStatus.invalid ∨
      (s.cookieStatus = none ∧ jsTruthyStr s.cookies = false))
    (hnp : ∀ e ∈ events, ∀ raw v now, e ≠ LifecycleEvent.paste raw v now) :
    (events.foldl lifecycleStep s).cookieStatus = some CookieStatus.invalid ∨
      ((events.foldl lifecycleStep s).cookieStatus = none ∧
        jsTruthyStr (events.foldl lifecycleStep s).cookies = false) := by
  induction events generalizing s with
  | nil => simpa using h
  | cons e t ih =>
    rw [List.foldl_cons]
    exact ih (lifecycleStep s e)
      (lifecycleStep_trap s e h (hnp e (by simp)))
      (fun x hx => hnp x (List.mem_cons_of_mem e hx))

/-- C4: a dispatched chat exchange answered with HTTP 401 or 403 sets the
credential status to `invalid` and nothing else; sends are blocked while
`invalid`; and no sequence of lifecycle operations avoiding `setCookies`
ever brings an `invalid` status back to `valid`. -/
theorem lifecycle_invalid_spec :
    (∀ (s : StoreState) (status : Nat) (success : Bool) (now : Int),
      (sendMessageGate s now).2 = GateResult.proceed →
      status = 401 ∨ status = 403 →
      (lifecycleStep s (.send status success now)).cookieStatus =
        some CookieStatus.invalid)
    ∧ (∀ (s : StoreState) (now : Int),
        s.cookieStatus = some CookieStatus.invalid →
        (sendMessageGate s now).2 ≠ GateResult.proceed)
    ∧ (∀ (events : List LifecycleEvent) (s : StoreState),
        s.cookieStatus = some CookieStatus.invalid →
        (∀ e ∈ events, ∀ raw v now, e ≠ LifecycleEvent.paste raw v now) →
        (events.foldl lifecycleStep s).cookieStatus ≠
          some CookieStatus.valid) := by
  refine ⟨?_, ?_, ?_⟩
  · intro s status success now hgate h40x
    have hro : responseOk status = false := by
      rcases h40x with h | h <;> subst h <;> decide
    simp only [lifecycleStep]
    cases hg : sendMessageGate s now with
    | mk s' r =>
      have hr : r = GateResult.proceed := by
        rw [hg] at hgate
        exact hgate
      subst hr
      show (if responseOk status = false ∨ success = false then
          if status = 401 ∨ status = 403 then
            { s' with cookieStatus := some CookieStatus.invalid }
          else s'
        else markCookiesValidated s' now).cookieStatus =
        some CookieStatus.invalid
      rw [if_pos (Or.inl hro), if_pos h40x]
  · intro s now hinv
    unfold sendMessageGate
    by_cases hc : jsTruthyStr s.cookies = false
    · rw [if_pos hc]
      simp
    · rw [if_neg hc, if_pos hinv]
      simp
  · intro events s hinv hnp
    rcases foldl_lifecycle_trap events s (Or.inl hinv) hnp with h | ⟨h, _⟩
    · rw [h]
      intro hcontra
      have := Option.some.inj hcontra
      exact CookieStatus.noConfusion this
    · rw [h]
      exact fun hcontra => Option.noConfusion hcontra

/-- C4 witness: from a fresh `unknown` state a dispatched send answered 401
lands in `invalid`, and from `invalid` the sequence send; logout; rehydrate
(no paste) never reaches `valid`. -/
theorem lifecycle_invalid_spec_witness :
    (lifecycleStep
      { cookies := some "c", cookieStatus := some CookieStatus.unknown,
        cookiesSetAt := some 0, lastValidatedAt := none }
      (.send 401 false 1000)).cookieStatus = some CookieStatus.invalid
    ∧ (([LifecycleEvent.send 200 true 5, LifecycleEvent.logout,
         LifecycleEvent.rehydrate 10].foldl lifecycleStep
      { cookies := some "c", cookieStatus := some CookieStatus.invalid,
        cookiesSetAt := some 0, lastValidatedAt := some 0 }).cookieStatus ≠
      some CookieStatus.valid) := by
  constructor
  · exact lifecycle_invalid_spec.1 _ 401 false 1000 (by decide) (Or.inl rfl)
  · refine lifecycle_invalid_spec.2.2 _ _ rfl ?_
    intro e he raw v now
    rcases List.mem_cons.mp he with h | he2
    · subst h
      exact fun hcontra => LifecycleEvent.noConfusion hcontra
    rcases List.mem_cons.mp he2 with h | he3
    · subst h
      exact fun hcontra => LifecycleEvent.noConfusion hcontra
    rcases List.mem_cons.mp he3 with h | he4
    · subst h
      exact fun hcontra => LifecycleEvent.noConfusion hcontra
    · exact absurd he4 (List.not_mem_nil e)

end GeminiBridge
